import Mathlib

/-!
Verification development for the git-tools repository's `stree/git-rp`
subtree-push engine, against its natural-language specification.

The engine script itself (`stree/git-rp`) is not present in the source tree;
only its integration tests (`stree/tests/`), fixtures and an unrelated
installer are.  The definitions below are therefore modelled from the
specification (configuration discovery, nested-subtree detection, push
operations and the orchestrator), staying faithful to the spec's words and to
the contracts the tests under `stree/tests/` exercise.
-/

namespace GitRp

/-- Modelled from the spec: one persisted configuration block (layout of
section 6: a `[subtree "<path>"]` block carrying `url` and `branch` fields;
the `git-rp` script that parses these blocks is missing from `src/`).
A block may lack its path key or its branch field. -/
structure ConfigBlock where
  path : Option String
  url : String
  branch : Option String
deriving DecidableEq, Repr

/-- Modelled from the spec: the SubtreeRecord of section 3 — path, remote
URL and target branch of one embedded repository slice. -/
structure SubtreeRecord where
  path : String
  url : String
  branch : String
deriving DecidableEq, Repr

/-- Modelled from the spec: ConfigDiscovery parsing (section 4.2, function
`get_subtrees_from_config` of the missing `git-rp` script).  Each block with
a path contributes one record in declaration order; a missing branch inherits
the configured default branch; a block missing a path is skipped and a
warning is recorded.  Returns (records, warnings). -/
def parseBlocks (d : String) : List ConfigBlock → List SubtreeRecord × List String
  | [] => ([], [])
  | b :: rest =>
    let acc := parseBlocks d rest
    match b.path with
    | none => (acc.1, ("ConfigParseWarning: block missing path, ignored: " ++ b.url) :: acc.2)
    | some p => (SubtreeRecord.mk p b.url (b.branch.getD d) :: acc.1, acc.2)

/-- Record built from a block that is known to carry a path. -/
def recordOfBlock (d : String) (b : ConfigBlock) : SubtreeRecord :=
  SubtreeRecord.mk (b.path.getD "") b.url (b.branch.getD d)

/-- Modelled from the spec: `get_subtrees_from_config` of the missing
`git-rp` script fails fatally (SystemExit with code 1, section 4.1 and the
test `test_not_in_git_repository`) when the working directory is not inside
a repository; otherwise it returns the parsed records. -/
def getSubtreesFromConfig (inRepo : Bool) (blocks : List ConfigBlock)
    (d : String) : Except Nat (List SubtreeRecord) :=
  if inRepo then Except.ok (parseBlocks d blocks).1 else Except.error 1

/-- Path join used by nested discovery: parent directory plus separator plus
the relative path. -/
def joinPath (p rel : String) : String := p ++ "/" ++ rel

/-- Modelled from the spec: the NestedSubtreeNode of section 3 — a subtree
record augmented with the path relative to the enclosing parent directory
(the dictionary keys `relative_path` and `path` checked by
`test_get_nested_subtrees`). -/
structure NestedNode where
  relative_path : String
  path : String
  url : String
  branch : String
deriving DecidableEq, Repr

/-- Modelled from the spec: `get_nested_subtrees` of the missing `git-rp`
script — ConfigDiscovery scoped to a parent directory, each discovered
record yielding a node whose `path` is the parent directory joined with the
record's (relative) path. -/
def get_nested_subtrees (parentDir : String) (cfg : List ConfigBlock)
    (d : String) : List NestedNode :=
  (parseBlocks d cfg).1.map fun r =>
    NestedNode.mk r.path (joinPath parentDir r.path) r.url r.branch

/-- Sample configuration used to instantiate proved properties: a single
block declaring a subtree at relative path `nested` (the scenario of
`test_get_nested_subtrees`). -/
def cfgNested : List ConfigBlock :=
  [ConfigBlock.mk (some "nested") "file:///tmp/level2-bare" (some "main")]

/-- The node discovery at `.` produces from `cfgNested`. -/
def nodeNested : NestedNode :=
  NestedNode.mk "nested" "./nested" "file:///tmp/level2-bare" "main"

/-- Modelled from the spec: the discovery tree of section 3 — each node's
children are the subtree records discovered inside that node's own path
(the NestedSubtreeDetector of the missing `git-rp` script builds it). -/
inductive DiscTree where
  | mk (node : NestedNode) (children : List DiscTree)

/-- The node stored at the root of a discovery tree. -/
def DiscTree.node : DiscTree → NestedNode
  | .mk n _ => n

/-- The child subtrees of a discovery tree. -/
def DiscTree.children : DiscTree → List DiscTree
  | .mk _ cs => cs

/-- Modelled from the spec: the non-fatal discovery errors of section 7
raised by the missing `git-rp` script's nested detection — a cyclic
configuration on the current recursion stack, and the hard depth ceiling. -/
inductive DiscErr where
  | cyclicSubtreeConfig (path : String)
  | depthLimitExceeded (path : String)
deriving DecidableEq, Repr

/-- One step of nested discovery over a single discovered node, parametric
in the recursive call: a node whose path is already on the visited stack
fails that branch with `cyclicSubtreeConfig` and contributes no tree; any
other node contributes a tree whose children come from the recursive call. -/
def discoverStepG
    (recur : List String → String → List DiscTree × List DiscErr)
    (visited : List String) (n : NestedNode)
    (acc : List DiscTree × List DiscErr) : List DiscTree × List DiscErr :=
  if visited.contains n.path then
    (acc.1, DiscErr.cyclicSubtreeConfig n.path :: acc.2)
  else
    let sub := recur (n.path :: visited) n.path
    (DiscTree.mk n sub.1 :: acc.1, sub.2 ++ acc.2)

/-- Modelled from the spec: recursive nested-subtree discovery of the
missing `git-rp` script (section 4.3) — depth-first discovery over the
configuration found at each directory (`fs`), with a hard depth ceiling
(`fuel`) and a visited-absolute-path stack refusing to recurse into a path
already on the stack.  Returns the discovered forest and the non-fatal
discovery errors. -/
def discoverChildren (fs : String → List ConfigBlock) (d : String) :
    Nat → List String → String → List DiscTree × List DiscErr
  | 0, _, dir => ([], [DiscErr.depthLimitExceeded dir])
  | fuel + 1, visited, dir =>
    (get_nested_subtrees dir (fs dir) d).foldr
      (discoverStepG (fun v p => discoverChildren fs d fuel v p) visited)
      ([], [])

/-- Depth of a forest of discovery trees (0 for the empty forest). -/
def depthList : List DiscTree → Nat
  | [] => 0
  | DiscTree.mk _ cs :: ts => max (1 + depthList cs) (depthList ts)

/-- Modelled from the spec: the depth-first post-order flat push sequence
(section 4.3) the orchestrator consumes — every node appears after all the
nodes of its own subtree. -/
def postorderList : List DiscTree → List NestedNode
  | [] => []
  | DiscTree.mk n cs :: ts => postorderList cs ++ n :: postorderList ts

/-- Occurrence relation: `Occurs s t` means the tree `s` occurs as a subtree of `t` (possibly
`t` itself); it captures the ancestor/descendant relation of the discovery
tree. -/
inductive Occurs : DiscTree → DiscTree → Prop
  | refl (t : DiscTree) : Occurs t t
  | child {s c : DiscTree} {n : NestedNode} {cs : List DiscTree} :
      c ∈ cs → Occurs s c → Occurs s (DiscTree.mk n cs)

/-- Sample filesystem for instantiating discovery properties: the root
directory declares two sibling subtrees `a` and `b`. -/
def fsTwoSiblings : String → List ConfigBlock := fun dir =>
  if dir = "." then
    [ConfigBlock.mk (some "a") "file:///tmp/a-bare" none,
     ConfigBlock.mk (some "b") "file:///tmp/b-bare" none]
  else []

/-- Node for the sample subtree `a` discovered at the root. -/
def nodeA : NestedNode := NestedNode.mk "a" "./a" "file:///tmp/a-bare" "main"

/-- Node for the sample subtree `b` discovered at the root. -/
def nodeB : NestedNode := NestedNode.mk "b" "./b" "file:///tmp/b-bare" "main"

/-- Sample discovery tree: the node `a` with the single child `b`. -/
def treeAB : DiscTree := DiscTree.mk nodeA [DiscTree.mk nodeB []]

/-- Modelled from the spec: the PushOutcome of section 3 — the result of
one push operation of the missing `git-rp` script, never silently
dropped. -/
inductive PushOutcome where
  | Pushed
  | SkippedDryRun
  | Rejected (reason : String)
  | Failed (reason : String)
deriving DecidableEq, Repr

/-- Observable state of every remote, indexed by remote identifier; a
mutating push advances the state of the target's remote. -/
def World := String → Nat

/-- Modelled from the spec: one push target of the missing `git-rp` script
together with the repository facts that determine its outcome (section
4.4): the main repository (does a remote with the target's name exist; has
local history diverged from the remote) or one subtree record (does its
declared path exist in the working tree; does history extraction produce a
pushable unit; is the remote URL reachable; has history diverged). -/
inductive Target where
  | main (remoteId : String) (hasRemote diverged : Bool)
  | subtree (remoteId : String) (pathExists hasHistory reachable diverged : Bool)
deriving DecidableEq, Repr

/-- The remote a target pushes to. -/
def Target.remoteId : Target → String
  | .main r _ _ => r
  | .subtree r _ _ _ _ => r

/-- Modelled from the spec: outcome classification of one push attempt
(section 4.4 of the spec for the missing `git-rp` script): a main target
with no remote fails; a missing subtree path, an extraction with no
pushable history, or an unreachable remote fails; a non-fast-forward
condition without force is rejected; otherwise the push applies. -/
def classify : Target → Bool → PushOutcome
  | .main _ hasRemote diverged, force =>
    if !hasRemote then PushOutcome.Failed "no remote configured for target"
    else if diverged && !force then PushOutcome.Rejected "non-fast-forward"
    else PushOutcome.Pushed
  | .subtree _ pathExists hasHistory reachable diverged, force =>
    if !pathExists then PushOutcome.Failed "subtree path does not exist"
    else if !hasHistory then PushOutcome.Failed "no pushable history extracted"
    else if !reachable then PushOutcome.Failed "remote unreachable"
    else if diverged && !force then PushOutcome.Rejected "non-fast-forward"
    else PushOutcome.Pushed

/-- Dry-run rendering of an outcome: a push that would apply is reported as
`SkippedDryRun`; every error outcome is reported as it would occur. -/
def dryOutcome : PushOutcome → PushOutcome
  | .Pushed => .SkippedDryRun
  | o => o

/-- Mutating effect of a successful push on the remotes. -/
def applyPush (t : Target) (w : World) : World :=
  fun r => if r = t.remoteId then w r + 1 else w r

/-- Modelled from the spec: the PushOperation of the missing `git-rp`
script (section 4.4) — total (failures are returned as outcomes, never
raised); with `dryRun` it issues no mutating call and returns the dry-run
rendering of the outcome that would occur; otherwise it mutates the
target's remote exactly when the outcome is `Pushed`. -/
def pushOp (t : Target) (dryRun force : Bool) (w : World) :
    PushOutcome × World :=
  let oc := classify t force
  if dryRun then (dryOutcome oc, w)
  else (oc, if oc = PushOutcome.Pushed then applyPush t w else w)

/-- Sequential push over an ordered target list, each outcome recorded
independently; one target's failure never skips subsequent targets. -/
def runPushes : List Target → Bool → Bool → World → List PushOutcome × World
  | [], _, _, w => ([], w)
  | t :: ts, dr, f, w =>
    let st := pushOp t dr f w
    let rest := runPushes ts dr f st.2
    (st.1 :: rest.1, rest.2)

/-- Is an outcome a success for exit-status aggregation? -/
def outcomeOk : PushOutcome → Bool
  | .Pushed => true
  | .SkippedDryRun => true
  | .Rejected _ => false
  | .Failed _ => false

/-- Modelled from the spec: exit-status aggregation (section 4.5, step 5) —
0 only if every recorded outcome is `Pushed` or `SkippedDryRun`, else 1. -/
def aggregateExit (outs : List PushOutcome) : Nat :=
  if outs.all outcomeOk then 0 else 1

/-- Modelled from the spec: the context of one orchestration run — whether
the working directory is a repository, the command flags, the configured
default branch, the depth ceiling, the root directory, the persisted
configuration found at each directory, the main target's facts and each
discovered node's target facts. -/
structure RunConfig where
  inRepo : Bool
  dryRun : Bool
  force : Bool
  defaultBranch : String
  maxDepth : Nat
  rootDir : String
  fs : String → List ConfigBlock
  mainTarget : Target
  stateOf : NestedNode → Target

/-- Modelled from the spec: the PushOrchestrator (section 4.5, the `main`
function of the missing `git-rp` script).  A missing repository is fatal
(error exit 1 before any push); otherwise the main target is pushed, nested
discovery produces the post-order flat sequence, every target in it is
pushed sequentially, and the outcomes (main first) are aggregated into the
exit status. -/
def orchestrate (c : RunConfig) (w : World) :
    Except Nat (List PushOutcome × Nat × World) :=
  if c.inRepo then
    let mainRes := pushOp c.mainTarget c.dryRun c.force w
    let forest :=
      (discoverChildren c.fs c.defaultBranch c.maxDepth [c.rootDir] c.rootDir).1
    let rest :=
      runPushes ((postorderList forest).map c.stateOf) c.dryRun c.force mainRes.2
    let outs := mainRes.1 :: rest.1
    Except.ok (outs, aggregateExit outs, rest.2)
  else Except.error 1

/-- Exit status of a finished run (a fatal context error carries its own
exit code). -/
def exitOf (r : Except Nat (List PushOutcome × Nat × World)) : Nat :=
  match r with
  | .error e => e
  | .ok (_, e, _) => e

end GitRp

namespace GitRp

/-- C8: configuration discovery returns the records in declaration order of
the blocks, exactly one record per block that has a path; a block missing a
branch inherits the configured default branch; a block missing a path is
skipped with a warning while the other valid blocks still yield their
records. -/
theorem config_discovery_declaration_order_and_defaults
    (d p u : String) (br : Option String) (blocks : List ConfigBlock) :
    (parseBlocks d blocks).1
      = (blocks.filter fun b => b.path.isSome).map (recordOfBlock d) ∧
    parseBlocks d (ConfigBlock.mk (some p) u br :: blocks)
      = (SubtreeRecord.mk p u (br.getD d) :: (parseBlocks d blocks).1,
         (parseBlocks d blocks).2) ∧
    parseBlocks d (ConfigBlock.mk (some p) u none :: blocks)
      = (SubtreeRecord.mk p u d :: (parseBlocks d blocks).1,
         (parseBlocks d blocks).2) ∧
    parseBlocks d (ConfigBlock.mk none u br :: blocks)
      = ((parseBlocks d blocks).1,
         ("ConfigParseWarning: block missing path, ignored: " ++ u)
           :: (parseBlocks d blocks).2) := by
  refine ⟨?_, rfl, rfl, rfl⟩
  induction blocks with
  | nil => rfl
  | cons b rest ih =>
    cases hb : b.path with
    | none => simp [parseBlocks, hb, ih]
    | some q => simp [parseBlocks, hb, ih, recordOfBlock]

/-- C10: every node returned by nested discovery invoked with a parent
directory has its `path` field equal to the parent directory joined with its
`relative_path` field. -/
theorem nested_node_path_is_parent_joined_relative
    (parentDir : String) (cfg : List ConfigBlock) (d : String)
    (n : NestedNode) (h : n ∈ get_nested_subtrees parentDir cfg d) :
    n.path = joinPath parentDir n.relative_path := by
  simp only [get_nested_subtrees, List.mem_map] at h
  obtain ⟨r, _, rfl⟩ := h
  rfl

/-- C10 instantiated: discovery at `.` of a subtree declared at relative
path `nested` yields the node with `relative_path = "nested"` and
`path = "./nested"`, and that node satisfies the join equation. -/
theorem nested_node_path_witness :
    nodeNested ∈ get_nested_subtrees "." cfgNested "main" ∧
      nodeNested.path = joinPath "." nodeNested.relative_path :=
  ⟨by decide,
   nested_node_path_is_parent_joined_relative "." cfgNested "main" nodeNested
     (by decide)⟩

theorem depthList_cons (n : NestedNode) (cs ts : List DiscTree) :
    depthList (DiscTree.mk n cs :: ts) = max (1 + depthList cs) (depthList ts) := by
  simp [depthList]

theorem postorderList_cons (n : NestedNode) (cs ts : List DiscTree) :
    postorderList (DiscTree.mk n cs :: ts)
      = postorderList cs ++ n :: postorderList ts := by
  simp [postorderList]

theorem postorderList_nil : postorderList [] = [] := by
  simp [postorderList]

theorem discover_foldr_roots_not_visited
    (recur : List String → String → List DiscTree × List DiscErr)
    (visited : List String) (ns : List NestedNode) :
    ∀ t ∈ (ns.foldr (discoverStepG recur visited) ([], [])).1,
      visited.contains t.node.path = false := by
  induction ns with
  | nil => intro t ht; simp at ht
  | cons n ns ih =>
    intro t ht
    simp only [List.foldr_cons] at ht
    cases hv : visited.contains n.path with
    | true => rw [discoverStepG, if_pos hv] at ht; exact ih t ht
    | false =>
      rw [discoverStepG, if_neg (by rw [hv]; exact Bool.false_ne_true)] at ht
      rcases List.mem_cons.mp ht with rfl | h2
      · simpa [DiscTree.node] using hv
      · exact ih t h2

theorem discover_foldr_cyclic_mem
    (recur : List String → String → List DiscTree × List DiscErr)
    (visited : List String) (ns : List NestedNode) (n : NestedNode)
    (hn : n ∈ ns) (hv : visited.contains n.path = true) :
    DiscErr.cyclicSubtreeConfig n.path
      ∈ (ns.foldr (discoverStepG recur visited) ([], [])).2 := by
  induction ns with
  | nil => cases hn
  | cons m ns ih =>
    simp only [List.foldr_cons]
    rcases List.mem_cons.mp hn with rfl | h2
    · rw [discoverStepG, if_pos hv]
      exact List.mem_cons_self _ _
    · cases hm : visited.contains m.path with
      | true =>
        rw [discoverStepG, if_pos hm]
        exact List.mem_cons_of_mem _ (ih h2)
      | false =>
        rw [discoverStepG, if_neg (by rw [hm]; exact Bool.false_ne_true)]
        exact List.mem_append_right _ (ih h2)

theorem discover_foldr_fresh_tree
    (recur : List String → String → List DiscTree × List DiscErr)
    (visited : List String) (ns : List NestedNode) (m : NestedNode)
    (hm : m ∈ ns) (hv : visited.contains m.path = false) :
    ∃ t ∈ (ns.foldr (discoverStepG recur visited) ([], [])).1,
      t.node = m := by
  induction ns with
  | nil => cases hm
  | cons n ns ih =>
    simp only [List.foldr_cons]
    rcases List.mem_cons.mp hm with rfl | h2
    · rw [discoverStepG, if_neg (by rw [hv]; exact Bool.false_ne_true)]
      exact ⟨DiscTree.mk m (recur (m.path :: visited) m.path).1,
        List.mem_cons_self _ _, rfl⟩
    · obtain ⟨t, htmem, htn⟩ := ih h2
      cases hn : visited.contains n.path with
      | true =>
        rw [discoverStepG, if_pos hn]
        exact ⟨t, htmem, htn⟩
      | false =>
        rw [discoverStepG, if_neg (by rw [hn]; exact Bool.false_ne_true)]
        exact ⟨t, List.mem_cons_of_mem _ htmem, htn⟩

theorem depthList_discoverChildren_le (fs : String → List ConfigBlock)
    (d : String) :
    ∀ (fuel : Nat) (visited : List String) (dir : String),
      depthList (discoverChildren fs d fuel visited dir).1 ≤ fuel := by
  intro fuel
  induction fuel with
  | zero => intro visited dir; simp [discoverChildren, depthList]
  | succ fuel ih =>
    intro visited dir
    show depthList ((get_nested_subtrees dir (fs dir) d).foldr
      (discoverStepG (fun v p => discoverChildren fs d fuel v p) visited)
      ([], [])).1 ≤ fuel + 1
    generalize get_nested_subtrees dir (fs dir) d = ns
    induction ns with
    | nil => simp [depthList]
    | cons n ns ihl =>
      simp only [List.foldr_cons]
      cases hv : visited.contains n.path with
      | true =>
        rw [discoverStepG, if_pos hv]
        exact ihl
      | false =>
        rw [discoverStepG, if_neg (by rw [hv]; exact Bool.false_ne_true)]
        cases hacc : ((ns.foldr
            (discoverStepG (fun v p => discoverChildren fs d fuel v p) visited)
            ([], []))) with
        | mk trees errs =>
          rw [hacc] at ihl
          simp only [depthList_cons]
          refine max_le ?_ ihl
          have hsub := ih (n.path :: visited) n.path
          omega

/-- C9: nested discovery is bounded by the hard depth ceiling (every
returned tree has depth at most the fuel), a discovered node whose path is
already on the visited recursion stack only fails its own branch — the
`cyclicSubtreeConfig` error is recorded and no returned tree is rooted at a
visited path — while every independent (non-visited) discovered node still
yields a tree. -/
theorem nested_discovery_bounded_and_cycle_safe
    (fs : String → List ConfigBlock) (d : String) (fuel : Nat)
    (visited : List String) (dir : String)
    (n : NestedNode) (hn : n ∈ get_nested_subtrees dir (fs dir) d)
    (hnv : visited.contains n.path = true)
    (m : NestedNode) (hm : m ∈ get_nested_subtrees dir (fs dir) d)
    (hmv : visited.contains m.path = false)
    (hfuel : 0 < fuel) :
    depthList (discoverChildren fs d fuel visited dir).1 ≤ fuel ∧
    DiscErr.cyclicSubtreeConfig n.path
      ∈ (discoverChildren fs d fuel visited dir).2 ∧
    (∀ t ∈ (discoverChildren fs d fuel visited dir).1,
        visited.contains t.node.path = false) ∧
    ∃ t ∈ (discoverChildren fs d fuel visited dir).1, t.node = m := by
  obtain ⟨fuel, rfl⟩ : ∃ k, fuel = k + 1 := ⟨fuel - 1, by omega⟩
  refine ⟨depthList_discoverChildren_le fs d _ visited dir, ?_, ?_, ?_⟩
  · exact discover_foldr_cyclic_mem _ visited _ n hn hnv
  · exact discover_foldr_roots_not_visited _ visited _
  · exact discover_foldr_fresh_tree _ visited _ m hm hmv

/-- C9 instantiated: at the sample two-sibling configuration with the path
of subtree `a` already on the recursion stack, discovery with fuel 1 stays
within depth 1, records the cyclic error for `./a`, returns no tree rooted
at a visited path, and still returns a tree for the independent sibling
`b`. -/
theorem nested_discovery_bounded_and_cycle_safe_witness :
    depthList (discoverChildren fsTwoSiblings "main" 1 ["./a"] ".").1 ≤ 1 ∧
    DiscErr.cyclicSubtreeConfig "./a"
      ∈ (discoverChildren fsTwoSiblings "main" 1 ["./a"] ".").2 ∧
    (∀ t ∈ (discoverChildren fsTwoSiblings "main" 1 ["./a"] ".").1,
        (["./a"] : List String).contains t.node.path = false) ∧
    ∃ t ∈ (discoverChildren fsTwoSiblings "main" 1 ["./a"] ".").1,
      t.node = nodeB :=
  nested_discovery_bounded_and_cycle_safe fsTwoSiblings "main" 1 ["./a"] "."
    nodeA (by decide) (by decide) nodeB (by decide) (by decide) (by decide)

theorem postorderList_split_of_mem {t : DiscTree} {ts : List DiscTree}
    (h : t ∈ ts) :
    ∃ a b, postorderList ts
      = a ++ (postorderList t.children ++ t.node :: b) := by
  induction ts with
  | nil => cases h
  | cons u us ih =>
    rcases List.mem_cons.mp h with rfl | h2
    · cases t with
      | mk n cs =>
        exact ⟨[], postorderList us,
          by simp [postorderList_cons, DiscTree.node, DiscTree.children]⟩
    · obtain ⟨a, b, e⟩ := ih h2
      cases u with
      | mk n cs =>
        exact ⟨postorderList cs ++ n :: a, b,
          by simp [postorderList_cons, e, List.append_assoc]⟩

theorem postorder_split_of_occurs {s t : DiscTree} (h : Occurs s t) :
    ∃ a b, postorderList t.children ++ [t.node]
      = a ++ (postorderList s.children ++ s.node :: b) := by
  induction h with
  | refl => exact ⟨[], [], by simp⟩
  | @child c n cs hc hocc ih =>
    obtain ⟨a2, b2, e2⟩ := ih
    obtain ⟨a1, b1, e1⟩ := postorderList_split_of_mem hc
    refine ⟨a1 ++ a2, b2 ++ (b1 ++ [n]), ?_⟩
    have e2x := congrArg (fun l => l ++ (b1 ++ [n])) e2
    simp only [List.append_assoc, List.singleton_append, List.cons_append,
      List.nil_append] at e2x
    show postorderList cs ++ [n]
      = (a1 ++ a2) ++ (postorderList s.children ++ s.node :: (b2 ++ (b1 ++ [n])))
    rw [e1]
    simp only [List.append_assoc, List.cons_append, List.singleton_append]
    rw [e2x]

theorem get_append_cons {α : Type} (P : List α) (q : α) (R : List α)
    (h : P.length < (P ++ q :: R).length) :
    (P ++ q :: R).get ⟨P.length, h⟩ = q := by
  induction P with
  | nil => rfl
  | cons x xs ih => exact ih (by simp)

theorem exists_get_lt {α : Type} (P M S : List α) (x y : α) :
    ∃ i j : Fin (P ++ (x :: (M ++ (y :: S)))).length,
      (i : Nat) < (j : Nat) ∧
      (P ++ (x :: (M ++ (y :: S)))).get i = x ∧
      (P ++ (x :: (M ++ (y :: S)))).get j = y := by
  have e : P ++ (x :: (M ++ (y :: S))) = (P ++ (x :: M)) ++ (y :: S) := by
    simp [List.append_assoc]
  have hi : P.length < (P ++ (x :: (M ++ (y :: S)))).length := by
    simp only [List.length_append, List.length_cons]; omega
  have hj0 : (P ++ (x :: M)).length
      < ((P ++ (x :: M)) ++ (y :: S)).length := by
    simp only [List.length_append, List.length_cons]; omega
  have hj : (P ++ (x :: M)).length
      < (P ++ (x :: (M ++ (y :: S)))).length := by
    rw [e]; exact hj0
  refine ⟨⟨P.length, hi⟩, ⟨(P ++ (x :: M)).length, hj⟩, ?_, ?_, ?_⟩
  · simp only [List.length_append, List.length_cons]; omega
  · exact get_append_cons P x (M ++ (y :: S)) hi
  · rw [List.get_of_eq e]
    exact get_append_cons (P ++ (x :: M)) y S hj0

/-- C1: the flat push sequence the orchestrator consumes (the post-order
flattening of the discovery forest) places every node strictly after every
node of its own subtree: for every tree of the forest, every subtree
occurrence `s` in it (the ancestor) and every node `dnode` of `s`'s own
subtree (a descendant), the descendant's index is strictly smaller than the
ancestor's.  No ordering between siblings is asserted. -/
theorem push_order_places_descendants_before_ancestors
    (forest : List DiscTree) (t s : DiscTree) (ht : t ∈ forest)
    (hocc : Occurs s t) (dnode : NestedNode)
    (hd : dnode ∈ postorderList s.children) :
    ∃ i j : Fin (postorderList forest).length,
      (i : Nat) < (j : Nat) ∧
      (postorderList forest).get i = dnode ∧
      (postorderList forest).get j = s.node := by
  obtain ⟨a1, b1, e1⟩ := postorderList_split_of_mem ht
  obtain ⟨a2, b2, e2⟩ := postorder_split_of_occurs hocc
  obtain ⟨m1, m2, hm⟩ := List.append_of_mem hd
  have e3 : postorderList forest
      = (a1 ++ (a2 ++ m1))
          ++ (dnode :: (m2 ++ (s.node :: (b2 ++ b1)))) := by
    calc postorderList forest
        = a1 ++ (postorderList t.children ++ t.node :: b1) := e1
      _ = a1 ++ ((postorderList t.children ++ [t.node]) ++ b1) := by
            simp [List.append_assoc]
      _ = a1 ++ ((a2 ++ (postorderList s.children ++ s.node :: b2)) ++ b1) := by
            rw [e2]
      _ = (a1 ++ (a2 ++ m1))
            ++ (dnode :: (m2 ++ (s.node :: (b2 ++ b1)))) := by
            rw [hm]; simp [List.append_assoc]
  rw [e3]
  exact exists_get_lt (a1 ++ (a2 ++ m1)) m2 (b2 ++ b1) dnode s.node

/-- C1 instantiated: in the one-tree forest where node `a` has the single
child `b`, the flattened push sequence places `b` strictly before `a`. -/
theorem push_order_witness :
    ∃ i j : Fin (postorderList [treeAB]).length,
      (i : Nat) < (j : Nat) ∧
      (postorderList [treeAB]).get i = nodeB ∧
      (postorderList [treeAB]).get j = treeAB.node :=
  push_order_places_descendants_before_ancestors [treeAB] treeAB treeAB
    (by simp) (Occurs.refl treeAB) nodeB
    (by simp [treeAB, DiscTree.children, postorderList])

theorem runPushes_length (ts : List Target) (dr f : Bool) (w : World) :
    (runPushes ts dr f w).1.length = ts.length := by
  induction ts generalizing w with
  | nil => rfl
  | cons t ts ih => simp [runPushes, ih]

theorem outcomeOk_iff (o : PushOutcome) :
    outcomeOk o = true ↔ o = PushOutcome.Pushed ∨ o = PushOutcome.SkippedDryRun := by
  cases o <;> simp [outcomeOk]

theorem aggregateExit_eq_zero_iff (outs : List PushOutcome) :
    aggregateExit outs = 0
      ↔ ∀ o ∈ outs, o = PushOutcome.Pushed ∨ o = PushOutcome.SkippedDryRun := by
  rw [aggregateExit]
  cases h : outs.all outcomeOk with
  | true =>
    rw [if_pos rfl]
    refine iff_of_true rfl ?_
    intro o ho
    exact (outcomeOk_iff o).mp (List.all_eq_true.mp h o ho)
  | false =>
    rw [if_neg Bool.false_ne_true]
    refine iff_of_false (by omega) ?_
    intro hall
    obtain ⟨o, ho, hno⟩ := List.all_eq_false.mp h
    exact hno ((outcomeOk_iff o).mpr (hall o ho))

theorem aggregateExit_zero_or_one (outs : List PushOutcome) :
    aggregateExit outs = 0 ∨ aggregateExit outs = 1 := by
  rw [aggregateExit]
  by_cases h : outs.all outcomeOk <;> simp [h]

/-- C2: for every run that reaches the push phase (the working directory is
a repository), the orchestrator reports exactly one outcome per target —
the main target plus every discovered subtree target — and the aggregated
exit status is 0 iff every recorded outcome is `Pushed` or `SkippedDryRun`;
the only other exit value is 1, so any `Rejected` or `Failed` outcome
forces a non-zero exit while every outcome is still in the report. -/
theorem orchestrate_exit_status_aggregation
    (dr f : Bool) (db root : String) (maxD : Nat)
    (fs : String → List ConfigBlock) (mt : Target)
    (st : NestedNode → Target) (w : World) :
    ∃ outs w2,
      orchestrate (RunConfig.mk true dr f db maxD root fs mt st) w
        = Except.ok (outs, aggregateExit outs, w2) ∧
      (aggregateExit outs = 0
        ↔ ∀ o ∈ outs, o = PushOutcome.Pushed ∨ o = PushOutcome.SkippedDryRun) ∧
      (aggregateExit outs = 0 ∨ aggregateExit outs = 1) ∧
      outs.length
        = (postorderList (discoverChildren fs db maxD [root] root).1).length
            + 1 := by
  refine ⟨_, _, rfl, aggregateExit_eq_zero_iff _, aggregateExit_zero_or_one _, ?_⟩
  show ((pushOp mt dr f w).1 ::
      (runPushes
        ((postorderList (discoverChildren fs db maxD [root] root).1).map st)
        dr f (pushOp mt dr f w).2).1).length
    = (postorderList (discoverChildren fs db maxD [root] root).1).length + 1
  simp [runPushes_length]

/-- C3: running a push operation with dry run enabled issues no mutating
operation — the remotes' state after the invocation equals the state had it
not run at all, for one operation and for a whole sequence of them — while
the operation still returns the dry-run rendering of the outcome the
mutating invocation would produce (`SkippedDryRun` for a push that would
apply, the identical error outcome otherwise). -/
theorem dry_run_has_no_side_effects
    (t : Target) (f : Bool) (w : World) (ts : List Target) :
    (pushOp t true f w).2 = w ∧
    (pushOp t true f w).1 = dryOutcome ((pushOp t false f w).1) ∧
    (runPushes ts true f w).2 = w := by
  refine ⟨rfl, rfl, ?_⟩
  induction ts generalizing w with
  | nil => rfl
  | cons t2 ts ih => simp [runPushes, pushOp, ih]

/-- C4: when the working directory is not inside a repository, reading the
persisted configuration fails fatally — `get_subtrees_from_config` aborts
with exit code 1 and the whole orchestration run ends with the fatal error
exit 1 instead of treating the absence as an empty subtree configuration. -/
theorem missing_repository_is_fatal
    (dr f : Bool) (db root : String) (maxD : Nat)
    (fs : String → List ConfigBlock) (mt : Target) (st : NestedNode → Target)
    (w : World) (blocks : List ConfigBlock) :
    orchestrate (RunConfig.mk false dr f db maxD root fs mt st) w
      = Except.error 1 ∧
    getSubtreesFromConfig false blocks db = Except.error 1 :=
  ⟨rfl, rfl⟩

theorem discoverChildren_of_no_config (d : String) (fuel : Nat)
    (visited : List String) (dir : String) :
    (discoverChildren (fun _ => []) d fuel visited dir).1 = [] := by
  cases fuel with
  | zero => rfl
  | succ fuel => rfl

theorem orchestrate_exit_eq (dr f : Bool) (db root : String) (maxD : Nat)
    (fs : String → List ConfigBlock) (mt : Target) (st : NestedNode → Target)
    (w : World) :
    exitOf (orchestrate (RunConfig.mk true dr f db maxD root fs mt st) w)
      = aggregateExit ((pushOp mt dr f w).1 ::
          (runPushes
            ((postorderList (discoverChildren fs db maxD [root] root).1).map st)
            dr f (pushOp mt dr f w).2).1) := rfl

/-- C5: a target whose local history has diverged from the remote
(non-fast-forward) yields `Rejected` without force and `Pushed` with force,
for the main target and for a subtree target alike; a run over such a main
target exits 1 without force and 0 with force. -/
theorem force_push_semantics
    (rid db root : String) (w : World) (st : NestedNode → Target) :
    (pushOp (Target.main rid true true) false false w).1
      = PushOutcome.Rejected "non-fast-forward" ∧
    (pushOp (Target.main rid true true) false true w).1
      = PushOutcome.Pushed ∧
    (pushOp (Target.subtree rid true true true true) false false w).1
      = PushOutcome.Rejected "non-fast-forward" ∧
    (pushOp (Target.subtree rid true true true true) false true w).1
      = PushOutcome.Pushed ∧
    exitOf (orchestrate
      (RunConfig.mk true false false db 32 root (fun _ => [])
        (Target.main rid true true) st) w) = 1 ∧
    exitOf (orchestrate
      (RunConfig.mk true false true db 32 root (fun _ => [])
        (Target.main rid true true) st) w) = 0 :=
  ⟨rfl, rfl, rfl, rfl,
    by rw [orchestrate_exit_eq, discoverChildren_of_no_config,
          postorderList_nil]; rfl,
    by rw [orchestrate_exit_eq, discoverChildren_of_no_config,
          postorderList_nil]; rfl⟩

/-- C6: a subtree target whose declared path does not exist, or whose
extraction produces no pushable history, or whose remote is unreachable,
yields the outcome `Failed` (returned, never raised — the operation is a
total function into outcomes), does not mutate any remote, and the run
continues with every remaining target: the remaining targets' outcomes are
recorded unchanged and there is one outcome per remaining target. -/
theorem subtree_failures_are_recorded_and_run_continues
    (rid : String) (hh re dv dr f : Bool) (ts : List Target) (w : World) :
    (pushOp (Target.subtree rid false hh re dv) dr f w
        = (PushOutcome.Failed "subtree path does not exist", w) ∧
      (runPushes (Target.subtree rid false hh re dv :: ts) dr f w).1
        = PushOutcome.Failed "subtree path does not exist"
            :: (runPushes ts dr f w).1) ∧
    (pushOp (Target.subtree rid true false re dv) dr f w
        = (PushOutcome.Failed "no pushable history extracted", w) ∧
      (runPushes (Target.subtree rid true false re dv :: ts) dr f w).1
        = PushOutcome.Failed "no pushable history extracted"
            :: (runPushes ts dr f w).1) ∧
    (pushOp (Target.subtree rid true true false dv) dr f w
        = (PushOutcome.Failed "remote unreachable", w) ∧
      (runPushes (Target.subtree rid true true false dv :: ts) dr f w).1
        = PushOutcome.Failed "remote unreachable"
            :: (runPushes ts dr f w).1) ∧
    (runPushes ts dr f w).1.length = ts.length := by
  cases dr <;>
    exact ⟨⟨rfl, rfl⟩, ⟨rfl, rfl⟩, ⟨rfl, rfl⟩, runPushes_length ts _ _ w⟩

/-- C7: pushing the main repository when no remote is configured under the
target's name returns a failure result (and pushOp, being a total function
into outcome/state pairs, raises nothing), leaving every remote
untouched. -/
theorem main_push_without_remote_returns_failure
    (rid : String) (dv dr f : Bool) (w : World) :
    pushOp (Target.main rid false dv) dr f w
      = (PushOutcome.Failed "no remote configured for target", w) := by
  cases dr <;> rfl

end GitRp
